import Mathlib

/-!
Verification development for the reminder/command-task plugin
(`astrbot_plugin_sy`).  The definitions below are shallow embeddings of the
Python source files; each is translated from the corresponding function in
the repository.  String-valued operations mirror the Python string methods
(`split`, `strip`, `lower`, `startswith`) with structurally recursive,
kernel-computable implementations.
-/

namespace ReminderPlugin

/-! ## Python string primitives -/

/-- Python `str.strip()` on a character list: drop whitespace from both ends. -/
def pyStripList (cs : List Char) : List Char :=
  ((cs.dropWhile Char.isWhitespace).reverse.dropWhile Char.isWhitespace).reverse

/-- Python `str.strip()`. -/
def pyStrip (s : String) : String := ⟨pyStripList s.data⟩

/-- Python `str.lower()` (ASCII case folding; the source only lowercases
ASCII position hints such as "end"/"after" before comparing). -/
def pyLower (s : String) : String := ⟨s.data.map Char.toLower⟩

/-- Is `p` a prefix of `s` (on characters)? -/
def prefixOfList : List Char → List Char → Bool
  | [], _ => true
  | _ :: _, [] => false
  | p :: ps, c :: cs => p == c && prefixOfList ps cs

/-- Python `str.startswith`. -/
def pyStartsWith (s pre : String) : Bool := prefixOfList pre.data s.data

/-- Fuel-indexed worker for Python `str.split(sep)` with a non-empty
separator.  The fuel is always instantiated with more than the length of the
input, so the fuel-exhaustion branch is unreachable. -/
def pySplitAux (sep : List Char) : Nat → List Char → List Char → List (List Char)
  | _, [], acc => [acc.reverse]
  | 0, s, acc => [acc.reverse ++ s]
  | fuel + 1, c :: cs, acc =>
    if prefixOfList sep (c :: cs) then
      acc.reverse :: pySplitAux sep fuel (List.drop sep.length (c :: cs)) []
    else
      pySplitAux sep fuel cs (c :: acc)

/-- Python `s.split(sep)` for a non-empty separator `sep`. -/
def pySplit (s sep : String) : List String :=
  (pySplitAux sep.data (s.data.length + 1) s.data []).map fun cs => ⟨cs⟩

/-- Python `sub in s` for a non-empty `sub`: the separator-split has at
least two parts exactly when the substring occurs. -/
def pyContains (s sub : String) : Bool := 2 ≤ (pySplit s sub).length

/-- Python `sep.join(l)`. -/
def pyJoin (sep : String) (l : List String) : String := String.intercalate sep l

/-! ## `CommandUtils` (src/command_utils.py) -/

/-- The custom-identifier dictionary `{"text": ..., "position": ...}`
returned by `CommandUtils._parse_custom_identifier`;
`position` is the string `"start"` or `"end"`. -/
structure CustomIdentifier where
  text : String
  position : String
  deriving DecidableEq

/-- `CommandUtils._parse_custom_identifier`: parse the part after `----`
into label text and placement. -/
def parse_custom_identifier (custom_part : String) : Option CustomIdentifier :=
  if custom_part = "" then none
  else if pyContains custom_part "--" then
    let parts := pySplit custom_part "--"
    if 2 ≤ parts.length then
      let position_part := pyStrip (parts.getD 0 "")
      let text_part := pyStrip (parts.getD 1 "")
      -- position defaults to "start"; the source's `elif` branch for the
      -- start synonyms re-assigns "start", which is the default already.
      let position :=
        if pyContains position_part "末尾" || pyContains position_part "后面"
            || pyContains (pyLower position_part) "end"
            || pyContains (pyLower position_part) "after" then "end"
        else "start"
      some ⟨text_part, position⟩
    else some ⟨custom_part, "start"⟩
  else some ⟨custom_part, "start"⟩

/-- The `"--"`-composition step of `CommandUtils.parse_multi_command`: the
source returns the (possibly label-stripped) `command` as first component in
every branch and computes this list as second component. -/
def build_executable (command : String) : List String :=
  if pyContains command "--" then
    let parts := (pySplit command "--").map pyStrip |>.filter (fun p => p != "")
    match parts with
    | [] => []
    | [p] => [p]
    | main :: subs => [main ++ " " ++ pyJoin " " subs]
  else [command]

/-- `CommandUtils.parse_multi_command`: returns
(display command, executable command list, custom identifier). -/
def parse_multi_command (command : String) :
    String × List String × Option CustomIdentifier :=
  if pyContains command "----" then
    let parts := pySplit command "----"
    if 2 ≤ parts.length then
      let command_part := pyStrip (parts.getD 0 "")
      let custom_part := pyStrip (parts.getD 1 "")
      (command_part, build_executable command_part,
        parse_custom_identifier custom_part)
    else (command, build_executable command, none)
  else (command, build_executable command, none)

/-- Index-tracking worker of `CommandUtils.validate_commands`. -/
def validateAux : Nat → List String → Bool × String
  | _, [] => (true, "")
  | i, cmd :: rest =>
    if !(pyStartsWith cmd "/") then
      (false, "命令 " ++ toString (i + 1) ++ " 格式错误，必须以 / 开头：" ++ cmd)
    else if cmd.length < 2 then
      (false, "命令 " ++ toString (i + 1) ++ " 太短：" ++ cmd)
    else validateAux (i + 1) rest

/-- `CommandUtils.validate_commands`: returns (valid?, error message). -/
def validate_commands (commands : List String) : Bool × String :=
  if commands.isEmpty then (false, "没有有效的命令")
  else validateAux 0 commands

/-- Acceptance criterion of claim C5, modelled from the spec's words:
every entry starts with the command-prefix marker and has length at least 2
*after* the marker. -/
def specAcceptsCommands (commands : List String) : Prop :=
  commands ≠ [] ∧ ∀ cmd ∈ commands, pyStartsWith cmd "/" = true ∧ 2 ≤ cmd.length - 1

/-! ## Python `int()` and the datetime helpers (src/utils.py) -/

/-- Accumulate decimal digits; fails on any non-digit character. -/
def digitsToNatAux : List Char → Nat → Option Nat
  | [], acc => some acc
  | c :: cs, acc =>
    if c.isDigit then digitsToNatAux cs (acc * 10 + (c.toNat - '0'.toNat)) else none

/-- Python `int(s)` restricted to an optional sign followed by decimal
digits, with surrounding whitespace stripped (the forms that occur in the
plugin's inputs). -/
def pyInt (s : String) : Option Int :=
  match pyStripList s.data with
  | [] => none
  | '-' :: rest =>
    match rest with
    | [] => none
    | _ => (digitsToNatAux rest 0).map fun n => -(n : Int)
  | '+' :: rest =>
    match rest with
    | [] => none
    | _ => (digitsToNatAux rest 0).map fun n => (n : Int)
  | cs => (digitsToNatAux cs 0).map fun n => (n : Int)

/-- Digits-only variant used by `strptime` (no sign accepted). -/
def digitsOnly (s : String) : Option Nat :=
  match s.data with
  | [] => none
  | cs => digitsToNatAux cs 0

/-- The hour/minute extraction of `parse_datetime`: first the `HH:MM`
attempt (`map(int, s.split(':'))` unpacked into two values), and if that
raises `ValueError`, the 4-character `HHMM` fallback. -/
def parse_hm (s : String) : Option (Int × Int) :=
  let colonAttempt : Option (Int × Int) :=
    match pySplit s ":" with
    | [a, b] => do
      let h ← pyInt a
      let m ← pyInt b
      pure (h, m)
    | _ => none
  match colonAttempt with
  | some hm => some hm
  | none =>
    if s.data.length = 4 then do
      let h ← pyInt ⟨s.data.take 2⟩
      let m ← pyInt ⟨s.data.drop 2⟩
      pure (h, m)
    else none

/-- `parse_datetime` (src/utils.py).  The ambient clock is modelled
truncated to the minute as `(day index, minute of day)`: the source's
`dt = today.replace(hour=hour, minute=minute)` keeps `today`'s seconds and
microseconds, so `dt < today` holds exactly when the requested minute of
day is smaller than the current one, and `strftime("%Y-%m-%d %H:%M")`
discards the sub-minute part.  The result is the returned timestamp, also
as `(day index, minute of day)`. -/
def parse_datetime (datetime_str : String) (now : Nat × Nat) :
    Except String (Nat × Nat) :=
  let datetime_str := pyStrip datetime_str
  match parse_hm datetime_str with
  | none =>
    Except.error "时间格式错误，请使用 HH:MM 格式（如 8:05）或 HHMM 格式（如 0805）"
  | some (hour, minute) =>
    if 0 ≤ hour ∧ hour ≤ 23 ∧ 0 ≤ minute ∧ minute ≤ 59 then
      let req := hour.toNat * 60 + minute.toNat
      if req < now.2 then Except.ok (now.1 + 1, req) else Except.ok (now.1, req)
    else Except.error "时间超出范围"

/-! ## Persistence purge (src/utils.py: `is_outdated`, `save_reminder_data`) -/

/-- A `datetime.datetime` value truncated to the minute:
(year, month, day, hour, minute).  Python compares these chronologically,
which coincides with lexicographic component order. -/
abbrev DT := Nat × Nat × Nat × Nat × Nat

/-- Chronological (lexicographic) strict order on `DT`. -/
def dtLt : DT → DT → Bool
  | (y1, mo1, d1, h1, n1), (y2, mo2, d2, h2, n2) =>
    decide (y1 < y2) || (decide (y1 = y2) && (decide (mo1 < mo2)
      || (decide (mo1 = mo2) && (decide (d1 < d2)
      || (decide (d1 = d2) && (decide (h1 < h2)
      || (decide (h1 = h2) && decide (n1 < n2))))))))

/-- Gregorian month length, as validated by `datetime.strptime`. -/
def days_in_month (y m : Nat) : Nat :=
  if m = 2 then
    (if (y % 4 = 0 && !(y % 100 = 0)) || y % 400 = 0 then 29 else 28)
  else if m = 4 || m = 6 || m = 9 || m = 11 then 30 else 31

/-- `datetime.strptime(s, "%Y-%m-%d %H:%M")`: split into date and time
parts, parse decimal components, and validate calendar ranges; any failure
is the `ValueError` case (`none`). -/
def strptime_ymd_hm (s : String) : Option DT :=
  match pySplit s " " with
  | [date, time] =>
    match pySplit date "-", pySplit time ":" with
    | [ys, ms, ds], [hs, ns] => do
      let y ← digitsOnly ys
      let mo ← digitsOnly ms
      let d ← digitsOnly ds
      let h ← digitsOnly hs
      let n ← digitsOnly ns
      if 1 ≤ mo ∧ mo ≤ 12 ∧ 1 ≤ d ∧ d ≤ days_in_month y mo ∧ h ≤ 23 ∧ n ≤ 59 then
        pure (y, mo, d, h, n)
      else none
    | _, _ => none
  | _ => none

/-- A stored reminder/task record.  `datetime` is `none` when the key is
missing from the dict and `some ""` when blank; `repeatRule` models the
record's `"repeat"` entry (`r.get("repeat", "none")` defaults it to
`"none"`); `text` stands for the remaining payload fields. -/
structure Reminder where
  datetime : Option String
  repeatRule : Option String
  text : String
  deriving DecidableEq

/-- `is_outdated` (src/utils.py): a record is outdated when its `datetime`
string is present, non-blank, parses in the canonical format, and is
strictly before `now`; a `ValueError` from parsing yields `False`. -/
def is_outdated (now : DT) (reminder : Reminder) : Bool :=
  match reminder.datetime with
  | some s =>
    if s ≠ "" then
      match strptime_ymd_hm s with
      | some t => dtLt t now
      | none => false
    else false
  | none => false

/-- The keep-condition of `save_reminder_data`'s purge list comprehension:
`"datetime" in r and r["datetime"] and not (r.get("repeat", "none") ==
"none" and is_outdated(r))`. -/
def keepOnSave (now : DT) (r : Reminder) : Bool :=
  (match r.datetime with
   | some s => s != ""
   | none => false) &&
  !((r.repeatRule.getD "none" == "none") && is_outdated now r)

/-- `save_reminder_data` (src/utils.py), restricted to its effect on the
store (the file write is external): filter every destination's list with
the keep-condition, then delete destinations left with no items. -/
def save_reminder_data (now : DT) (store : List (String × List Reminder)) :
    List (String × List Reminder) :=
  (store.map fun kv => (kv.1, kv.2.filter (keepOnSave now))).filter
    fun kv => !kv.2.isEmpty

/-! ## Week adjustment (src/command_utils.py: `DateTimeProcessor`) -/

/-- `ParameterValidator.WEEK_MAP`. -/
def WEEK_MAP : List (String × Nat) :=
  [("mon", 0), ("tue", 1), ("wed", 2), ("thu", 3), ("fri", 4), ("sat", 5), ("sun", 6)]

/-- Weekday of an absolute timestamp counted in minutes from a Monday-00:00
epoch (Python `datetime.weekday()`: Monday = 0). -/
def weekdayOf (dt : Nat) : Nat := (dt / 1440) % 7

/-- `DateTimeProcessor.adjust_datetime_for_week` (the same logic is inlined
in `ReminderCommands.add_reminder`).  Timestamps are absolute minutes from
a Monday epoch, so `dt + days * 1440` is `dt + datetime.timedelta(days=days)`.
A week token outside `WEEK_MAP` raises `KeyError` in the source; callers
validate the token first, so that branch is unreachable and modelled as the
identity. -/
def adjust_datetime_for_week (dt : Nat) (week : Option String) : Nat :=
  match week with
  | none => dt
  | some w =>
    match WEEK_MAP.lookup (pyLower w) with
    | none => dt
    | some target =>
      let current := weekdayOf dt
      let days_ahead : Int := (target : Int) - (current : Int)
      let days_ahead := if days_ahead ≤ 0 then days_ahead + 7 else days_ahead
      dt + days_ahead.toNat * 1440

/-! ## Positional removal (src/commands.py: `ReminderCommands.remove_reminder`) -/

/-- Outcome reported by `remove_reminder`: the "没有设置任何提醒或任务。"
early return, the "序号无效。" invalid-index return, or a successful removal
carrying the removed record. -/
inductive RemoveOutcome where
  | noItems
  | invalidIndex
  | removed (item : Reminder)
  deriving DecidableEq

/-- Replace the list stored under `key` (Python `reminders.pop` mutates the
dict's list in place). -/
def updateStore (store : List (String × List Reminder)) (key : String)
    (rs : List Reminder) : List (String × List Reminder) :=
  store.map fun kv => if kv.1 == key then (key, rs) else kv

/-- `ReminderCommands.remove_reminder`, restricted to its effect on the
store: fetch the destination's list, reject an empty list or an index
outside `1..len`, otherwise `pop(index - 1)` and run `save_reminder_data`
(which purges the whole store).  Scheduler-job cancellation and the
LLM-phrased confirmation message are external side effects. -/
def remove_reminder (now : DT) (store : List (String × List Reminder))
    (key : String) (index : Int) :
    List (String × List Reminder) × RemoveOutcome :=
  let reminders := (List.lookup key store).getD []
  if reminders.isEmpty then (store, RemoveOutcome.noItems)
  else if index < 1 ∨ (reminders.length : Int) < index then
    (store, RemoveOutcome.invalidIndex)
  else
    match reminders.get? (index - 1).toNat with
    | none => (store, RemoveOutcome.invalidIndex)
    | some r =>
      let reminders2 := reminders.eraseIdx (index - 1).toNat
      (save_reminder_data now (updateStore store key reminders2),
        RemoveOutcome.removed r)

/-! ## Command Execution Bridge (src/command_trigger.py: `CommandTrigger`) -/

/-- Value of a synthetic event's `send` attribute: either the event's own
bound `send` method (identified by the event's id) or the installed
interceptor closure. -/
inductive Sender where
  | boundSend (e : Nat)
  | interceptedSend
  deriving DecidableEq

/-- Value of an event's `bot.api.call_action` attribute. -/
inductive CallAction where
  | boundCall (e : Nat)
  | interceptedCall
  deriving DecidableEq

/-- A message chain captured by the interceptor, as its plain-text parts. -/
abbrev MsgChain := List String

/-- The mutable state of a `CommandTrigger` instance together with the
`send`/`call_action` attributes of the synthetic events it touches
(events are named by `Nat` ids; `callActions e = none` models an event
whose bot object has no `api.call_action` attribute). -/
structure BridgeState where
  sends : Nat → Sender
  callActions : Nat → Option CallAction
  originalSendMethod : Option Sender
  originalCallAction : Option CallAction
  targetEvent : Option Nat
  capturedMessages : List MsgChain

/-- `CommandTrigger.setup_message_interceptor`: remember the target event,
reset the capture buffer, save the original `send` *only when none is saved
yet* (`if self.original_send_method is None`), save the original
`call_action` afresh each call, then install the interceptors. -/
def setup_message_interceptor (st : BridgeState) (e : Nat) : BridgeState :=
  let st := { st with targetEvent := some e, capturedMessages := [] }
  let st :=
    if st.originalSendMethod = none then
      { st with originalSendMethod := some (st.sends e) }
    else st
  let st := { st with originalCallAction := st.callActions e }
  let st := { st with sends := fun i => if i = e then Sender.interceptedSend else st.sends i }
  if (st.originalCallAction).isSome then
    { st with callActions := fun i =>
        if i = e then some CallAction.interceptedCall else st.callActions i }
  else st

/-- `CommandTrigger.restore_message_sender`: write the saved
`original_send_method` back onto the remembered target event (when both are
set), and likewise the saved `original_call_action`. -/
def restore_message_sender (st : BridgeState) : BridgeState :=
  let st :=
    match st.originalSendMethod, st.targetEvent with
    | some orig, some e =>
      { st with sends := fun i => if i = e then orig else st.sends i }
    | _, _ => st
  match st.originalCallAction, st.targetEvent with
  | some origCA, some e =>
    { st with callActions := fun i => if i = e then some origCA else st.callActions i }
  | _, _ => st

/-- The waiting loop of `trigger_and_capture_command`, with time discretised
into poll intervals (one tick = `wait_interval` = 100 ms): while
`waited < max`, sleep one tick, then break if the capture buffer is
non-empty.  `buffer k` is the content of `self.captured_messages` as
observed at the k-th poll.  After the loop the source re-checks the buffer
(`if self.captured_messages`), which is the fuel-0 base case.  Returns
(success, captured messages, elapsed ticks). -/
def capture_poll_loop (buffer : Nat → List MsgChain) :
    Nat → Nat → Bool × List MsgChain × Nat
  | 0, waited => (!(buffer waited).isEmpty, buffer waited, waited)
  | fuel + 1, waited =>
    let w := waited + 1
    if !(buffer w).isEmpty then (true, buffer w, w)
    else capture_poll_loop buffer fuel w

/-- `CommandTrigger.trigger_and_capture_command`: create a fresh synthetic
event `e`, install the interceptor, submit the event to the host queue
(external), then poll up to `maxTicks` intervals (`max_command_wait_time /
0.1`; the configured default 20 s gives 200 ticks).  `raises` models an
exception escaping from the triggering body, handled by the `except` arm:
on every path `restore_message_sender` runs before returning.  Returns the
updated state, the `(success, captured messages)` pair the source returns,
and the elapsed ticks of the wait loop. -/
def trigger_and_capture_command (st : BridgeState) (e : Nat) (raises : Bool)
    (buffer : Nat → List MsgChain) (maxTicks : Nat) :
    BridgeState × (Bool × List MsgChain) × Nat :=
  let st1 := setup_message_interceptor st e
  if raises then
    (restore_message_sender st1, (false, []), 0)
  else
    match capture_poll_loop buffer maxTicks 0 with
    | (ok, msgs, ticks) =>
      let st2 := { st1 with capturedMessages := msgs }
      (restore_message_sender st2, (ok, msgs), ticks)

/-! ## Parser lemmas -/

lemma validate_err_ne_empty (t u v : String) : (("命令 " ++ t) ++ u) ++ v ≠ "" := by
  intro hc
  have h2 := congrArg String.data hc
  simp only [String.data_append] at h2
  rcases List.append_eq_nil.mp h2 with ⟨h3, -⟩
  rcases List.append_eq_nil.mp h3 with ⟨h4, -⟩
  rcases List.append_eq_nil.mp h4 with ⟨h5, -⟩
  exact absurd h5 (by decide)

lemma validateAux_fst (i : Nat) (cmds : List String) :
    (validateAux i cmds).1 = true ↔
      ∀ cmd ∈ cmds, pyStartsWith cmd "/" = true ∧ 2 ≤ cmd.length := by
  induction cmds generalizing i with
  | nil => simp [validateAux]
  | cons cmd rest ih =>
    cases h1 : pyStartsWith cmd "/" with
    | false =>
      simp only [validateAux, h1, Bool.not_false, if_pos]
      constructor
      · intro h
        simp at h
      · intro h
        exact absurd (h cmd (by simp)).1 (by simp [h1])
    | true =>
      by_cases h2 : cmd.length < 2
      · simp only [validateAux, h1, Bool.not_true, Bool.false_eq_true, if_false, if_pos h2]
        constructor
        · intro h
          simp at h
        · intro h
          have := (h cmd (by simp)).2
          omega
      · simp only [validateAux, h1, Bool.not_true, Bool.false_eq_true, if_false, if_neg h2]
        rw [ih (i + 1)]
        constructor
        · intro h c hc
          rcases List.mem_cons.mp hc with rfl | hc
          · exact ⟨h1, by omega⟩
          · exact h c hc
        · intro h c hc
          exact h c (List.mem_cons_of_mem _ hc)

lemma validateAux_snd (i : Nat) (cmds : List String) (h : (validateAux i cmds).1 = false) :
    (validateAux i cmds).2 ≠ "" := by
  induction cmds generalizing i with
  | nil => simp [validateAux] at h
  | cons cmd rest ih =>
    cases h1 : pyStartsWith cmd "/" with
    | false =>
      simp only [validateAux, h1, Bool.not_false, if_pos]
      exact validate_err_ne_empty _ _ _
    | true =>
      by_cases h2 : cmd.length < 2
      · simp only [validateAux, h1, Bool.not_true, Bool.false_eq_true, if_false, if_pos h2]
        exact validate_err_ne_empty _ _ _
      · simp only [validateAux, h1, Bool.not_true, Bool.false_eq_true, if_false,
          if_neg h2] at h ⊢
        exact ih (i + 1) h

/-! ## Claim theorems: parser -/

/-- Claim C3 (confirmed): `parse_multi_command "/rmd--ls"` returns display
form `"/rmd--ls"` (the original unsplit string), executable form
`["/rmd ls"]` and no custom label. -/
theorem claim3_parser_round_trip :
    parse_multi_command "/rmd--ls" = ("/rmd--ls", ["/rmd ls"], none) := by decide

/-- Claim C4 (confirmed): `parse_multi_command "/rmd--ls----before--每日提醒"`
returns executable form `["/rmd ls"]` and the custom label
`{text := "每日提醒", position := "start"}`; the English position hints are
matched case-insensitively ("AFTER" yields "end"), the Chinese synonym
"开头" yields "start", and an unrecognized hint defaults to "start". -/
theorem claim4_parser_with_label :
    parse_multi_command "/rmd--ls----before--每日提醒" =
      ("/rmd--ls", ["/rmd ls"], some ⟨"每日提醒", "start"⟩) ∧
    parse_custom_identifier "AFTER--hi" = some ⟨"hi", "end"⟩ ∧
    parse_custom_identifier "开头--hi" = some ⟨"hi", "start"⟩ ∧
    parse_custom_identifier "xyz--hi" = some ⟨"hi", "start"⟩ :=
  ⟨by decide, by decide, by decide, by decide⟩

/-- Claim C5 counterexample: `validate_commands` accepts `["/a"]` even though
the entry has only one character after the `/` marker, so acceptance is not
equivalent to "length at least 2 after the marker" as the claim states. -/
theorem claim5_counterexample :
    (validate_commands ["/a"]).1 = true ∧ ¬ specAcceptsCommands ["/a"] := by
  constructor
  · decide
  · intro h
    have := (h.2 "/a" (by simp)).2
    exact absurd this (by decide)

/-- Claim C5 (amended): `validate_commands` accepts a list iff it is
non-empty and every entry starts with `/` and has total length at least 2
(i.e. at least one character after the marker, not two); every rejection
carries a non-empty error message, and the function is total (no exception
can escape). -/
theorem claim5_validation (cmds : List String) :
    ((validate_commands cmds).1 = true ↔
      cmds ≠ [] ∧ ∀ cmd ∈ cmds, pyStartsWith cmd "/" = true ∧ 2 ≤ cmd.length) ∧
    ((validate_commands cmds).1 = false → (validate_commands cmds).2 ≠ "") := by
  cases he : cmds.isEmpty with
  | true =>
    have h0 : cmds = [] := List.isEmpty_iff.mp he
    subst h0
    exact ⟨by simp [validate_commands], fun _ => by decide⟩
  | false =>
    have hne : cmds ≠ [] := by
      intro h0
      subst h0
      simp at he
    simp only [validate_commands, he, Bool.false_eq_true, if_false]
    refine ⟨?_, validateAux_snd 0 cmds⟩
    rw [validateAux_fst 0 cmds]
    simp [hne]

/-- Closed witness for the amended claim C5 at a concrete accepted list. -/
theorem claim5_validation_witness :
    (validate_commands ["/rmd ls"]).1 = true :=
  (claim5_validation ["/rmd ls"]).1.mpr (by decide)

/-- Claim C6 counterexample: on input `"/rmd--ls----x"` (which contains the
`----` custom-label separator) the returned display form is the stripped
part before `----`, not the original user-entered string. -/
theorem claim6_counterexample :
    (parse_multi_command "/rmd--ls----x").1 = "/rmd--ls" ∧
    (parse_multi_command "/rmd--ls----x").1 ≠ "/rmd--ls----x" := by
  constructor <;> decide

/-- Claim C6 (amended): the display form returned by `parse_multi_command`
is the original string verbatim (including leading/trailing whitespace)
whenever the input does not contain the `----` separator; when it does, the
display form is the whitespace-stripped portion before the first `----`. -/
theorem claim6_display_form (s : String) :
    (parse_multi_command s).1 =
      if pyContains s "----" then pyStrip ((pySplit s "----").getD 0 "") else s := by
  unfold parse_multi_command
  by_cases h : pyContains s "----"
  · have h2 : 2 ≤ (pySplit s "----").length := of_decide_eq_true h
    simp [h, h2]
  · simp [h]

/-! ## Bridge lemmas and claim theorems C1, C2 -/

lemma capture_poll_loop_timeout (buffer : Nat → List MsgChain)
    (h : ∀ k, buffer k = []) :
    ∀ fuel w, capture_poll_loop buffer fuel w = (false, [], w + fuel) := by
  intro fuel
  induction fuel with
  | zero =>
    intro w
    simp [capture_poll_loop, h w]
  | succ f ih =>
    intro w
    have harith : w + 1 + f = w + (f + 1) := by omega
    simp only [capture_poll_loop, h (w + 1), List.isEmpty_nil, Bool.not_true,
      Bool.false_eq_true, if_false, ih (w + 1), harith]

lemma capture_poll_loop_first (buffer : Nat → List MsgChain) :
    ∀ fuel w k, w < k → k ≤ w + fuel → buffer k ≠ [] →
      (∀ j, w < j → j < k → buffer j = []) →
      capture_poll_loop buffer fuel w = (true, buffer k, k) := by
  intro fuel
  induction fuel with
  | zero =>
    intro w k h1 h2 _ _
    omega
  | succ f ih =>
    intro w k h1 h2 h3 h4
    by_cases hk : k = w + 1
    · subst hk
      have hne : (buffer (w + 1)).isEmpty = false := by
        cases hb : buffer (w + 1) with
        | nil => exact absurd hb h3
        | cons a l => simp
      simp [capture_poll_loop, hne]
    · have hlt : w + 1 < k := by omega
      have hempty : buffer (w + 1) = [] := h4 (w + 1) (by omega) hlt
      simp only [capture_poll_loop, hempty, List.isEmpty_nil, Bool.not_true,
        Bool.false_eq_true, if_false]
      exact ih (w + 1) k hlt (by omega) h3 fun j hj1 hj2 => h4 j (by omega) hj2

/-- Claim C1 (confirmed): when the triggered handler never appends a reply
to the capture buffer, `trigger_and_capture_command` returns the timed-out
outcome `(False, [])` after exactly `maxTicks` poll intervals — i.e. after
`maxTicks * 100 ms = max_command_wait_time` elapsed, no sooner than the
timeout and no later than timeout plus one interval; and if the buffer
first becomes non-empty at poll `k ≤ maxTicks`, it returns
`(True, buffer k)` at that poll. -/
theorem claim1_capture_timeout (st : BridgeState) (e : Nat)
    (buffer : Nat → List MsgChain) (maxTicks : Nat) :
    ((∀ k, buffer k = []) →
      (trigger_and_capture_command st e false buffer maxTicks).2 =
        ((false, []), maxTicks)) ∧
    (∀ k, 1 ≤ k → k ≤ maxTicks → buffer k ≠ [] →
      (∀ j, 0 < j → j < k → buffer j = []) →
      (trigger_and_capture_command st e false buffer maxTicks).2 =
        ((true, buffer k), k)) := by
  constructor
  · intro h
    simp only [trigger_and_capture_command, Bool.false_eq_true, if_false,
      capture_poll_loop_timeout buffer h maxTicks 0, Nat.zero_add]
  · intro k h1 h2 h3 h4
    simp only [trigger_and_capture_command, Bool.false_eq_true, if_false,
      capture_poll_loop_first buffer maxTicks 0 k (by omega) (by omega) h3
        (fun j hj1 hj2 => h4 j hj1 hj2)]

/-- Initial bridge state: a fresh `CommandTrigger` (both saved methods
`None`, no target event, empty buffer) over events that each carry their
own bound `send` method and no `bot.api.call_action`. -/
def bridgeInit : BridgeState :=
  ⟨fun i => Sender.boundSend i, fun _ => none, none, none, none, []⟩

/-- Closed witness for claim C1 at the default configuration
(20 s timeout = 200 polls of 100 ms) with a handler that never replies. -/
theorem claim1_capture_timeout_witness :
    (trigger_and_capture_command bridgeInit 0 false (fun _ => []) 200).2 =
      ((false, []), 200) :=
  (claim1_capture_timeout bridgeInit 0 (fun _ => []) 200).1 fun _ => rfl

/-- State after a first (timed-out) invocation on event 0. -/
def secondTriggerStart : BridgeState :=
  (trigger_and_capture_command bridgeInit 0 false (fun _ => []) 1).1

/-- State after a subsequent invocation on a different event 1. -/
def secondTriggerEnd : BridgeState :=
  (trigger_and_capture_command secondTriggerStart 1 false (fun _ => []) 1).1

/-- Claim C2 (code bug): `setup_message_interceptor` saves the original
`send` only when `self.original_send_method is None`, and nothing ever
resets it to `None`; so while the first invocation on event 0 restores
event 0's own send correctly, a second invocation on the same
`CommandTrigger` with a different event 1 "restores" event 0's stale bound
send onto event 1 — after that call, event 1's reply-delivery path is not
the one in place before the shim was installed. -/
theorem claim2_stale_send_restore :
    bridgeInit.sends 1 = Sender.boundSend 1 ∧
    secondTriggerStart.sends 0 = Sender.boundSend 0 ∧
    secondTriggerStart.originalSendMethod = some (Sender.boundSend 0) ∧
    secondTriggerEnd.sends 1 = Sender.boundSend 0 ∧
    Sender.boundSend 0 ≠ Sender.boundSend 1 :=
  ⟨rfl, rfl, rfl, rfl, by decide⟩

/-! ## Purge lemmas and claim theorem C7 -/

lemma keepOnSave_spec (now : DT) (r : Reminder) (h : keepOnSave now r = true) :
    (∃ s, r.datetime = some s ∧ s ≠ "") ∧
    ¬(r.repeatRule.getD "none" = "none" ∧ is_outdated now r = true) := by
  unfold keepOnSave at h
  cases hdt : r.datetime with
  | none =>
    rw [hdt] at h
    simp at h
  | some s =>
    rw [hdt] at h
    simp only [Bool.and_eq_true, bne_iff_ne, ne_eq, Bool.not_eq_true] at h
    obtain ⟨hs, hb⟩ := h
    refine ⟨⟨s, rfl, hs⟩, ?_⟩
    intro hcontra
    obtain ⟨h1, h2⟩ := hcontra
    simp [h1, h2] at hb

lemma save_cons (now : DT) (k : String) (rs : List Reminder)
    (rest : List (String × List Reminder)) :
    save_reminder_data now ((k, rs) :: rest) =
      if (rs.filter (keepOnSave now)).isEmpty then save_reminder_data now rest
      else (k, rs.filter (keepOnSave now)) :: save_reminder_data now rest := by
  simp only [save_reminder_data, List.map_cons, List.filter_cons]
  cases he : (rs.filter (keepOnSave now)).isEmpty with
  | true => simp [he]
  | false => simp [he]

lemma filter_keep_idem (now : DT) (l : List Reminder) :
    (l.filter (keepOnSave now)).filter (keepOnSave now) = l.filter (keepOnSave now) := by
  rw [List.filter_filter]
  simp

/-- Claim C7 (confirmed): after any `save_reminder_data` call, every stored
destination has a non-empty list whose items all carry a present, non-blank
`datetime` and are not expired one-shots (`repeat == "none"` with a
timestamp strictly before now); an item surviving the keep-condition is
retained unchanged under its key; and the purge is idempotent — saving
twice at the same clock equals saving once. -/
theorem claim7_save_purge (now : DT) (store : List (String × List Reminder)) :
    (∀ kv ∈ save_reminder_data now store, kv.2 ≠ [] ∧ ∀ r ∈ kv.2,
        (∃ s, r.datetime = some s ∧ s ≠ "") ∧
        ¬(r.repeatRule.getD "none" = "none" ∧ is_outdated now r = true)) ∧
    (∀ kv ∈ store, kv.2.filter (keepOnSave now) ≠ [] →
        (kv.1, kv.2.filter (keepOnSave now)) ∈ save_reminder_data now store) ∧
    save_reminder_data now (save_reminder_data now store) =
      save_reminder_data now store := by
  refine ⟨?_, ?_, ?_⟩
  · intro kv hkv
    unfold save_reminder_data at hkv
    rcases List.mem_filter.mp hkv with ⟨hmem, hne⟩
    rcases List.mem_map.mp hmem with ⟨kv0, hkv0, rfl⟩
    constructor
    · intro hnil
      rw [hnil] at hne
      simp at hne
    · intro r hr
      exact keepOnSave_spec now r (List.mem_filter.mp hr).2
  · intro kv hkv hfne
    unfold save_reminder_data
    refine List.mem_filter.mpr ⟨List.mem_map.mpr ⟨kv, hkv, rfl⟩, ?_⟩
    have hev : (kv.2.filter (keepOnSave now)).isEmpty = false := by
      cases hx : (kv.2.filter (keepOnSave now)).isEmpty with
      | false => rfl
      | true => exact absurd (List.isEmpty_iff.mp hx) hfne
    simp [hev]
  · induction store with
    | nil => rfl
    | cons kv rest ih =>
      obtain ⟨k, rs⟩ := kv
      rw [save_cons]
      by_cases he : (rs.filter (keepOnSave now)).isEmpty = true
      · rw [if_pos he]
        exact ih
      · rw [if_neg he, save_cons, filter_keep_idem, if_neg he, ih]

/-- Clock used by the concrete store examples: 2025-01-01 00:00. -/
def demoNow : DT := (2025, 1, 1, 0, 0)

/-- A one-shot reminder that is still in the future at `demoNow`. -/
def demoFresh : Reminder := ⟨some "2030-01-01 00:00", some "none", "fresh"⟩

/-- A second not-yet-due one-shot reminder. -/
def demoFresh2 : Reminder := ⟨some "2030-01-02 00:00", some "none", "fresh2"⟩

/-- A one-shot reminder already expired at `demoNow`. -/
def demoStale : Reminder := ⟨some "2020-01-01 00:00", some "none", "stale"⟩

/-- A two-destination store with one live and one expired item. -/
def demoStore : List (String × List Reminder) := [("A", [demoFresh]), ("B", [demoStale])]

/-- Closed witness for claim C7: on `demoStore`, the purge is idempotent and
the surviving destination keeps its (fully retained) list. -/
theorem claim7_save_purge_witness :
    save_reminder_data demoNow (save_reminder_data demoNow demoStore) =
      save_reminder_data demoNow demoStore ∧
    ("A", [demoFresh]) ∈ save_reminder_data demoNow demoStore := by
  constructor
  · exact (claim7_save_purge demoNow demoStore).2.2
  · have h := (claim7_save_purge demoNow demoStore).2.1 ("A", [demoFresh])
      (by decide) (by decide)
    have he : [demoFresh].filter (keepOnSave demoNow) = [demoFresh] := by decide
    dsimp only at h
    rw [he] at h
    exact h

/-! ## Removal lemmas and claim theorem C8 -/

lemma mem_of_lookup_store (key : String) (store : List (String × List Reminder))
    (rs : List Reminder) (h : List.lookup key store = some rs) : (key, rs) ∈ store := by
  induction store with
  | nil => simp [List.lookup] at h
  | cons kv rest ih =>
    obtain ⟨k, l⟩ := kv
    by_cases hk : (key == k) = true
    · have hkey : key = k := by simpa using hk
      subst hkey
      simp [List.lookup] at h
      simp [h]
    · simp only [List.lookup, hk, Bool.false_eq_true, if_false] at h
      exact List.mem_cons_of_mem _ (ih h)

lemma updateStore_cons (k : String) (l : List Reminder)
    (rest : List (String × List Reminder)) (key : String) (rs2 : List Reminder) :
    updateStore ((k, l) :: rest) key rs2 =
      (if (k == key) = true then (key, rs2) else (k, l)) :: updateStore rest key rs2 := rfl

lemma lookup_save_update_other (now : DT) (key : String) (rs2 : List Reminder)
    (k2 : String) (hk2 : k2 ≠ key) :
    ∀ store : List (String × List Reminder),
      (∀ kv ∈ store, ∀ r ∈ kv.2, keepOnSave now r = true) →
      (∀ kv ∈ store, kv.2 ≠ []) →
      List.lookup k2 (save_reminder_data now (updateStore store key rs2)) =
        List.lookup k2 store := by
  intro store
  induction store with
  | nil => intro _ _; rfl
  | cons kv rest ih =>
    intro hkeep hne
    obtain ⟨k, l⟩ := kv
    have hkeephd := hkeep (k, l) (List.mem_cons_self _ _)
    have hnehd := hne (k, l) (List.mem_cons_self _ _)
    have ih2 := ih (fun kv hkv => hkeep kv (List.mem_cons_of_mem _ hkv))
      (fun kv hkv => hne kv (List.mem_cons_of_mem _ hkv))
    rw [updateStore_cons]
    by_cases hk : (k == key) = true
    · rw [if_pos hk, save_cons]
      have hkeq : k = key := by simpa using hk
      have hlook : List.lookup k2 ((k, l) :: rest) = List.lookup k2 rest := by
        simp [List.lookup, show (k2 == k) = false by simp [hkeq, hk2]]
      by_cases he2 : (rs2.filter (keepOnSave now)).isEmpty = true
      · rw [if_pos he2, hlook]
        exact ih2
      · rw [if_neg he2, hlook]
        rw [show List.lookup k2 ((key, rs2.filter (keepOnSave now)) ::
              save_reminder_data now (updateStore rest key rs2)) =
            List.lookup k2 (save_reminder_data now (updateStore rest key rs2)) by
          simp [List.lookup, show (k2 == key) = false by simp [hk2]]]
        exact ih2
    · rw [if_neg hk, save_cons]
      have hfl : l.filter (keepOnSave now) = l := List.filter_eq_self.mpr hkeephd
      rw [hfl]
      have hle : l.isEmpty = false := by
        cases l with
        | nil => exact absurd rfl hnehd
        | cons a t => rfl
      rw [if_neg (by simp [hle])]
      by_cases hk2k : (k2 == k) = true
      · simp [List.lookup, hk2k]
      · simp only [List.lookup, hk2k, Bool.false_eq_true, if_false]
        exact ih2

lemma lookup_save_update_self_empty (now : DT) (key : String) (rs2 : List Reminder)
    (hrs2 : (rs2.filter (keepOnSave now)).isEmpty = true) :
    ∀ store : List (String × List Reminder),
      List.lookup key (save_reminder_data now (updateStore store key rs2)) = none := by
  intro store
  induction store with
  | nil => rfl
  | cons kv rest ih =>
    obtain ⟨k, l⟩ := kv
    rw [updateStore_cons]
    by_cases hk : (k == key) = true
    · rw [if_pos hk, save_cons, if_pos hrs2]
      exact ih
    · rw [if_neg hk, save_cons]
      have hkne : (key == k) = false := by
        have hx : ¬ k = key := by simpa using hk
        simp [Ne.symm hx]
      by_cases he : (l.filter (keepOnSave now)).isEmpty = true
      · rw [if_pos he]
        exact ih
      · rw [if_neg he]
        simp only [List.lookup, hkne, Bool.false_eq_true, if_false]
        exact ih

lemma lookup_save_update_self_nonempty (now : DT) (key : String) (rs2 : List Reminder)
    (hkeep2 : rs2.filter (keepOnSave now) = rs2) (hrs2ne : rs2 ≠ []) :
    ∀ (store : List (String × List Reminder)) (rs : List Reminder),
      List.lookup key store = some rs →
      List.lookup key (save_reminder_data now (updateStore store key rs2)) = some rs2 := by
  intro store
  induction store with
  | nil =>
    intro rs h
    simp [List.lookup] at h
  | cons kv rest ih =>
    intro rs h
    obtain ⟨k, l⟩ := kv
    rw [updateStore_cons]
    by_cases hk : (k == key) = true
    · rw [if_pos hk, save_cons, hkeep2]
      have hrse : rs2.isEmpty = false := by
        cases rs2 with
        | nil => exact absurd rfl hrs2ne
        | cons a t => rfl
      rw [if_neg (by simp [hrse])]
      simp [List.lookup]
    · rw [if_neg hk, save_cons]
      have hkne : (key == k) = false := by
        have hx : ¬ k = key := by simpa using hk
        simp [Ne.symm hx]
      have hrec : List.lookup key ((k, l) :: rest) = List.lookup key rest := by
        simp [List.lookup, hkne]
      rw [hrec] at h
      by_cases he : (l.filter (keepOnSave now)).isEmpty = true
      · rw [if_pos he]
        exact ih rs h
      · rw [if_neg he]
        simp only [List.lookup, hkne, Bool.false_eq_true, if_false]
        exact ih rs h

/-- Claim C8 counterexample: removing item 1 from destination "A" also
drops destination "B" entirely, because `remove_reminder` ends with a
`save_reminder_data` pass that purges B's expired one-shot — so "other
destinations' lists are unchanged" fails as stated. -/
theorem claim8_counterexample :
    (remove_reminder demoNow [("A", [demoFresh, demoFresh2]), ("B", [demoStale])]
        "A" 1).1 = [("A", [demoFresh2])] ∧
    List.lookup "B" [("A", [demoFresh2])] = none ∧
    List.lookup "B" [("A", [demoFresh, demoFresh2]), ("B", [demoStale])] =
      some [demoStale] := ⟨by decide, by decide, by decide⟩

/-- Claim C8 (amended): on a store whose items all pass the save-cycle keep
condition and whose destination lists are non-empty, `remove_reminder`
interprets its index as 1-based into the destination's current list: for
`1 ≤ index ≤ length` it removes exactly the item at that position (the
remainder is `take (index-1) ++ drop index`, i.e. later items shift down by
one), other destinations are unaffected, and the destination's key is
dropped when its list becomes empty (the trailing save-cycle purge); for an
index outside that range it reports the invalid-index outcome and returns
the store unchanged. -/
theorem claim8_positional_delete (now : DT) (store : List (String × List Reminder))
    (key : String) (rs : List Reminder) (index : Int)
    (hlook : List.lookup key store = some rs)
    (hkeep : ∀ kv ∈ store, ∀ r ∈ kv.2, keepOnSave now r = true)
    (hne : ∀ kv ∈ store, kv.2 ≠ []) :
    ((1 ≤ index ∧ index ≤ (rs.length : Int)) →
      (∃ r, rs.get? (index - 1).toNat = some r ∧
        (remove_reminder now store key index).2 = RemoveOutcome.removed r) ∧
      rs.eraseIdx (index - 1).toNat =
        rs.take (index - 1).toNat ++ rs.drop ((index - 1).toNat + 1) ∧
      List.lookup key (remove_reminder now store key index).1 =
        (if (rs.eraseIdx (index - 1).toNat).isEmpty then none
         else some (rs.eraseIdx (index - 1).toNat)) ∧
      (∀ k2, k2 ≠ key →
        List.lookup k2 (remove_reminder now store key index).1 =
          List.lookup k2 store)) ∧
    ((index < 1 ∨ (rs.length : Int) < index) →
      remove_reminder now store key index = (store, RemoveOutcome.invalidIndex)) := by
  have hmem := mem_of_lookup_store key store rs hlook
  have hrsne : rs ≠ [] := hne (key, rs) hmem
  have hkeepRS : ∀ r ∈ rs, keepOnSave now r = true := hkeep (key, rs) hmem
  have hrsE : rs.isEmpty = false := by
    cases rs with
    | nil => exact absurd rfl hrsne
    | cons a t => rfl
  constructor
  · rintro ⟨hi1, hi2⟩
    have hilt : (index - 1).toNat < rs.length := by omega
    obtain ⟨r, hr⟩ : ∃ r, rs.get? (index - 1).toNat = some r :=
      ⟨rs.get ⟨(index - 1).toNat, hilt⟩, List.get?_eq_get hilt⟩
    have hrange : ¬(index < 1 ∨ (rs.length : Int) < index) := by omega
    have hres : remove_reminder now store key index =
        (save_reminder_data now
            (updateStore store key (rs.eraseIdx (index - 1).toNat)),
          RemoveOutcome.removed r) := by
      simp only [remove_reminder, hlook, Option.getD_some, hrsE, Bool.false_eq_true,
        if_false, if_neg hrange, hr]
    have hkeepE : ∀ r2 ∈ rs.eraseIdx (index - 1).toNat, keepOnSave now r2 = true :=
      fun r2 hr2 => hkeepRS r2 (List.eraseIdx_subset rs _ hr2)
    have hfilterE : (rs.eraseIdx (index - 1).toNat).filter (keepOnSave now) =
        rs.eraseIdx (index - 1).toNat := List.filter_eq_self.mpr hkeepE
    refine ⟨⟨r, hr, by rw [hres]⟩, List.eraseIdx_eq_take_drop_succ rs _, ?_, ?_⟩
    · rw [hres]
      by_cases hE : (rs.eraseIdx (index - 1).toNat).isEmpty = true
      · rw [if_pos hE]
        exact lookup_save_update_self_empty now key _ (by rw [hfilterE]; exact hE) store
      · rw [if_neg hE]
        refine lookup_save_update_self_nonempty now key _ hfilterE ?_ store rs hlook
        intro hx
        rw [hx] at hE
        exact hE rfl
    · intro k2 hk2
      rw [hres]
      exact lookup_save_update_other now key _ k2 hk2 store hkeep hne
  · intro hinv
    simp only [remove_reminder, hlook, Option.getD_some, hrsE, Bool.false_eq_true,
      if_false, if_pos hinv]

/-- Closed witness for the amended claim C8: deleting position 1 of a
two-item destination leaves exactly the second item, and index 5 is
rejected with the store unchanged. -/
theorem claim8_positional_delete_witness :
    List.lookup "A" (remove_reminder demoNow [("A", [demoFresh, demoFresh2])] "A" 1).1 =
      some [demoFresh2] ∧
    remove_reminder demoNow [("A", [demoFresh, demoFresh2])] "A" 5 =
      ([("A", [demoFresh, demoFresh2])], RemoveOutcome.invalidIndex) := by
  constructor
  · have h := (claim8_positional_delete demoNow [("A", [demoFresh, demoFresh2])] "A"
      [demoFresh, demoFresh2] 1 (by decide) (by decide) (by decide)).1
      ⟨by decide, by decide⟩
    have h2 := h.2.2.1
    have he : ([demoFresh, demoFresh2].eraseIdx ((1 : Int) - 1).toNat) = [demoFresh2] := rfl
    rw [he] at h2
    simpa using h2
  · exact (claim8_positional_delete demoNow [("A", [demoFresh, demoFresh2])] "A"
      [demoFresh, demoFresh2] 5 (by decide) (by decide) (by decide)).2 (by decide)

/-! ## Claim theorems C9 and C10 -/

lemma WEEK_MAP_target_lt (s : String) (t : Nat) (h : WEEK_MAP.lookup s = some t) :
    t < 7 := by
  simp only [WEEK_MAP, List.lookup] at h
  repeat' split at h
  all_goals simp_all
  all_goals omega

/-- Claim C9 (confirmed): with a valid starting weekday, the adjusted
datetime lands on the requested weekday at the same time of day, strictly
between 1 and 7 days after the base — and exactly 7 days later when the
base already falls on the requested weekday (never same-day). -/
theorem claim9_week_adjustment (dt : Nat) (w : String) (target : Nat)
    (h : WEEK_MAP.lookup (pyLower w) = some target) :
    weekdayOf (adjust_datetime_for_week dt (some w)) = target ∧
    adjust_datetime_for_week dt (some w) % 1440 = dt % 1440 ∧
    dt + 1440 ≤ adjust_datetime_for_week dt (some w) ∧
    adjust_datetime_for_week dt (some w) ≤ dt + 7 * 1440 ∧
    (weekdayOf dt = target → adjust_datetime_for_week dt (some w) = dt + 7 * 1440) := by
  have ht7 : target < 7 := WEEK_MAP_target_lt _ _ h
  simp only [adjust_datetime_for_week, h, weekdayOf]
  by_cases hle : (target : Int) - ((dt / 1440) % 7 : Nat) ≤ 0
  · rw [if_pos hle]
    have hda : ((target : Int) - ((dt / 1440) % 7 : Nat) + 7).toNat =
        target + 7 - (dt / 1440) % 7 := by omega
    rw [hda]
    refine ⟨by omega, by omega, by omega, by omega, fun h5 => by omega⟩
  · rw [if_neg hle]
    have hda : ((target : Int) - ((dt / 1440) % 7 : Nat)).toNat =
        target - (dt / 1440) % 7 := by omega
    rw [hda]
    refine ⟨by omega, by omega, by omega, by omega, fun h5 => by omega⟩

/-- Closed witness for claim C9, the spec's scenario: base Monday 08:05
(minute 485 from a Monday epoch) with weekday "fri" lands on the upcoming
Friday (weekday 4) at 08:05, between 1 and 7 days ahead. -/
theorem claim9_week_adjustment_witness :
    WEEK_MAP.lookup (pyLower "fri") = some 4 ∧
    weekdayOf (adjust_datetime_for_week 485 (some "fri")) = 4 ∧
    adjust_datetime_for_week 485 (some "fri") % 1440 = 485 % 1440 ∧
    485 + 1440 ≤ adjust_datetime_for_week 485 (some "fri") ∧
    adjust_datetime_for_week 485 (some "fri") ≤ 485 + 7 * 1440 := by
  have h := claim9_week_adjustment 485 "fri" 4 (by decide)
  exact ⟨by decide, h.1, h.2.1, h.2.2.1, h.2.2.2.1⟩

/-- Claim C10 (confirmed): whenever `parse_datetime` accepts its input, the
returned timestamp is today at the requested hour:minute when that minute
has not yet passed, otherwise the same time tomorrow; it is never earlier
than the current time truncated to the minute and always strictly less than
24 hours in the future. -/
theorem claim10_parse_never_past (s : String) (day cur : Nat) (r : Nat × Nat)
    (hcur : cur < 1440)
    (h : parse_datetime s (day, cur) = Except.ok r) :
    r.2 < 1440 ∧
    (cur ≤ r.2 → r = (day, r.2)) ∧
    (r.2 < cur → r = (day + 1, r.2)) ∧
    day * 1440 + cur ≤ r.1 * 1440 + r.2 ∧
    r.1 * 1440 + r.2 < day * 1440 + cur + 1440 := by
  unfold parse_datetime at h
  dsimp only at h
  cases hp : parse_hm (pyStrip s) with
  | none =>
    rw [hp] at h
    exact absurd h (by simp)
  | some hm =>
    obtain ⟨hh, mm⟩ := hm
    rw [hp] at h
    dsimp only at h
    by_cases hrange : 0 ≤ hh ∧ hh ≤ 23 ∧ 0 ≤ mm ∧ mm ≤ 59
    · rw [if_pos hrange] at h
      by_cases hlt : hh.toNat * 60 + mm.toNat < cur
      · rw [if_pos hlt] at h
        injection h with h
        subst h
        refine ⟨by omega, by intro h2; exfalso; omega, fun _ => rfl, by omega, by omega⟩
      · rw [if_neg hlt] at h
        injection h with h
        subst h
        refine ⟨by omega, fun _ => rfl, by intro h2; exfalso; omega, by omega, by omega⟩
    · rw [if_neg hrange] at h
      exact absurd h (by simp)

/-- Closed witness for claim C10: at 10:00 (minute 600 of day 100),
"8:05" parses to 08:05 tomorrow — not in the past, less than 24 h ahead. -/
theorem claim10_parse_never_past_witness :
    parse_datetime "8:05" (100, 600) = Except.ok (101, 485) ∧
    100 * 1440 + 600 ≤ 101 * 1440 + 485 ∧
    101 * 1440 + 485 < 100 * 1440 + 600 + 1440 := by
  have h := claim10_parse_never_past "8:05" 100 600 (101, 485) (by omega) (by rfl)
  exact ⟨rfl, h.2.2.2.1, h.2.2.2.2⟩

end ReminderPlugin
